import Mathlib

/-!
Bokken instruction-execution core: a shallow embedding.

This file embeds the instruction-execution subsystem of the Bokken Solana
emulator in Lean 4 and settles the specification claims against it.

The embedding follows the Rust sources:
* `solana-debug-runtime/src/debug_env.rs` (`BokkenAccountData`,
  `BokkenRuntimeMessage`);
* `solana-debug-runtime/src/executor.rs` (`SolanaAccountsBlob`,
  `execute_sol_program_thread`);
* `solana-debug-runtime/src/sol_syscalls.rs` (`BokkenSyscalls`);
* `solana-debug-runtime/src/ipc_comm.rs` (`IPCComm` framing);
* `solana-debug-validator/src/debug_ledger.rs` (`execute_instructions`);
* `solana-debug-validator/src/native_program_stubs.rs` and
  `native_program_stubs/system_program.rs` (built-in system program).

Conventions of the embedding:
* A `Pubkey` is an opaque 32-byte identifier compared for equality; it is
  modelled as `Nat` (serialized into the account blob as 32 little-endian
  bytes, which is injective for keys below `2 ^ 256`).
* Rust `HashMap<Pubkey, _>` values are modelled as association lists with
  unique keys (`AMap`), with `HashMap`-like `insert` (replace), `remove`,
  `get` and `contains_key` operations.  Iteration order of a `HashMap` is
  unspecified in Rust; every claim settled below is insensitive to it.
* Machine integers are `Nat`s; where the Rust code can overflow a `u64`
  (the wrapping `+=` in `move_lamports`) the model reduces modulo `2 ^ 64`.
* Fallible Rust functions return `Except`/`Option`, or a product with an
  `Option` error component when the original mutates in place and the
  claims speak about the state left behind on failure.
-/

/-- 32-byte public key, compared for equality only.  Modelled as `Nat`. -/
abbrev Pubkey := Nat

/-- `BokkenAccountData` from `debug_env.rs`: lamports, data, owner,
executable flag, rent epoch.  `Default` in Rust zeroes every field. -/
structure BokkenAccountData where
  lamports : Nat
  data : List Nat
  owner : Pubkey
  executable : Bool
  rentEpoch : Nat
  deriving Repr, DecidableEq

instance : Inhabited BokkenAccountData :=
  ⟨{ lamports := 0, data := [], owner := 0, executable := false, rentEpoch := 0 }⟩

/-- `BorshAccountMeta` from `debug_env.rs`: pubkey plus signer/writable flags. -/
structure BorshAccountMeta where
  pubkey : Pubkey
  isSigner : Bool
  isWritable : Bool
  deriving Repr, DecidableEq

/-- Association-list model of `HashMap<Pubkey, BokkenAccountData>`. -/
abbrev AMap := List (Pubkey × BokkenAccountData)

/-- `HashMap::get` (by key equality). -/
def alookup {α : Type} (m : List (Pubkey × α)) (k : Pubkey) : Option α :=
  match m with
  | [] => none
  | (k', v) :: rest => if k' = k then some v else alookup rest k

/-- `HashMap::contains_key`. -/
def acontains {α : Type} (m : List (Pubkey × α)) (k : Pubkey) : Bool :=
  match m with
  | [] => false
  | (k', _) :: rest => if k' = k then true else acontains rest k

/-- `HashMap::insert`: replaces the binding if the key is present,
otherwise appends it. -/
def ainsert {α : Type} (m : List (Pubkey × α)) (k : Pubkey) (v : α) : List (Pubkey × α) :=
  match m with
  | [] => [(k, v)]
  | (k', v') :: rest => if k' = k then (k, v) :: rest else (k', v') :: ainsert rest k v

/-- `HashMap::remove` (drops the binding for `k`, if any). -/
def aremove {α : Type} (m : List (Pubkey × α)) (k : Pubkey) : List (Pubkey × α) :=
  match m with
  | [] => []
  | (k', v') :: rest => if k' = k then rest else (k', v') :: aremove rest k

/-- Inserting every binding of `src` into `dst`, in order
(the `for (pubkey, account_data) in … { state.insert(…) }` loops). -/
def ainsertAll (dst src : AMap) : AMap :=
  src.foldl (fun acc kv => ainsert acc kv.1 kv.2) dst

/-- `ProgramError` variants used by the embedded code paths
(`solana_program::program_error::ProgramError`). -/
inductive ProgramError where
  | custom (code : Nat)
  | invalidAccountData
  | invalidRealloc
  | uninitializedAccount
  | missingRequiredSignature
  | insufficientFunds
  | notEnoughAccountKeys
  | invalidInstructionData
  | accountAlreadyInitialized
  | invalidSeeds
  deriving Repr, DecidableEq

/-- `BokkenAccountData::move_lamports` (`debug_env.rs` lines 17–24).  The
Rust function mutates `self` and `to` in place and returns
`Result<(), ProgramError>`; the model returns the two accounts it leaves
behind together with the optional error.  `to.lamports += amount` is a
wrapping `u64` addition in release builds, hence the `% 2 ^ 64`. -/
def BokkenAccountData.moveLamports (a b : BokkenAccountData) (amount : Nat) :
    BokkenAccountData × BokkenAccountData × Option ProgramError :=
  if a.lamports < amount then
    (a, b, some .insufficientFunds)
  else
    ({ a with lamports := a.lamports - amount },
     { b with lamports := (b.lamports + amount) % 2 ^ 64 },
     none)

/-! Account blob (`executor.rs`): the packed byte layout consumed by the
native entrypoint, with its offset index and typed read/write views. -/

/-- `solana_program::entrypoint::MAX_PERMITTED_DATA_INCREASE` (10 KiB). -/
def MAX_PERMITTED_DATA_INCREASE : Nat := 10240

/-- Fixed-width little-endian byte encoding of a `Nat`
(`to_le_bytes` for `u32`/`u64`, and the 32 raw bytes of a `Pubkey`). -/
def natToLeBytes (width n : Nat) : List Nat :=
  match width with
  | 0 => []
  | w + 1 => n % 256 :: natToLeBytes w (n / 256)

/-- Little-endian decoding of a byte slice (`from_le_bytes`). -/
def leBytesToNat (bs : List Nat) : Nat :=
  match bs with
  | [] => 0
  | b :: rest => b + 256 * leBytesToNat rest

/-- `bool as u8`. -/
def boolToByte (b : Bool) : Nat := if b then 1 else 0

/-- A byte buffer (`Vec<u8>`), represented by its length and its contents
as a function of the index, so that indexed reads into a large buffer stay
cheap to evaluate.  Out-of-range indices read as 0; the embedded code only
reads in range (see `SolanaAccountsBlob.wf`). -/
structure ByteBuf where
  size : Nat
  byteAt : Nat → Nat

/-- `Vec::extend`: concatenation of two buffers. -/
def ByteBuf.append (a b : ByteBuf) : ByteBuf :=
  { size := a.size + b.size
    byteAt := fun i => if i < a.size then a.byteAt i else b.byteAt (i - a.size) }

/-- A buffer holding the given bytes. -/
def ByteBuf.ofList (l : List Nat) : ByteBuf :=
  { size := l.length, byteAt := fun i => l.getD i 0 }

/-- `vec![0; n]`. -/
def ByteBuf.zeros (n : Nat) : ByteBuf := { size := n, byteAt := fun _ => 0 }

/-- The slice `b[off .. off + len]` as a list of bytes. -/
def ByteBuf.slice (b : ByteBuf) (off len : Nat) : List Nat :=
  (List.range len).map fun j => b.byteAt (off + j)

/-- `b[off .. off + repl.length].copy_from_slice(repl)`: overwrites the
bytes at `off` in place, leaving the length unchanged. -/
def ByteBuf.overwrite (b : ByteBuf) (off : Nat) (repl : List Nat) : ByteBuf :=
  { size := b.size
    byteAt := fun i =>
      if off ≤ i ∧ i < off + repl.length then repl.getD (i - off) 0 else b.byteAt i }

/-- `size_of::<AccountInfoHeader>()`: 4 `u8`s, a `u32`, two 32-byte pubkeys
and two `u64`s laid out `repr(C)` without padding. -/
def ACCOUNT_INFO_HEADER_SIZE : Nat := 88

/-- `AccountInfoHeader` from `executor.rs`, as read back from the blob
bytes (`bytemuck::from_bytes`). -/
structure AccountInfoHeader where
  marker : Nat
  isSignerByte : Nat
  isWritableByte : Nat
  executableByte : Nat
  originalDataLen : Nat
  pubkey : Pubkey
  owner : Pubkey
  lamports : Nat
  dataLen : Nat
  deriving Repr, DecidableEq

/-- Reads the 88-byte `AccountInfoHeader` starting at `off`
(`bytemuck::from_bytes` over `bytes[off .. off + 88]`). -/
def parseAccountInfoHeader (bytes : ByteBuf) (off : Nat) : AccountInfoHeader :=
  { marker := bytes.byteAt off
    isSignerByte := bytes.byteAt (off + 1)
    isWritableByte := bytes.byteAt (off + 2)
    executableByte := bytes.byteAt (off + 3)
    originalDataLen := leBytesToNat (bytes.slice (off + 4) 4)
    pubkey := leBytesToNat (bytes.slice (off + 8) 32)
    owner := leBytesToNat (bytes.slice (off + 40) 32)
    lamports := leBytesToNat (bytes.slice (off + 72) 8)
    dataLen := leBytesToNat (bytes.slice (off + 80) 8) }

/-- `SolanaAccountsBlob` from `executor.rs`: packed bytes, the
pubkey-to-offset side index, and the accounts that were passed in but not
placed in the blob. -/
structure SolanaAccountsBlob where
  accountOffsets : List (Pubkey × Nat)
  bytes : ByteBuf
  nonEntrypointedAccountInfos : AMap

/-- The per-meta loop of `SolanaAccountsBlob::new`: a back-reference
(8-byte first-occurrence index) for a repeated pubkey, otherwise a full
record of header, data, `MAX_PERMITTED_DATA_INCREASE` growth room, padding
of `blob.len() % 8` zero bytes and the trailing rent epoch.  The source
`account_datas.remove(..).expect(..)` panics when a meta's pubkey is
missing from the account map; the model substitutes the default account
there, and every claim below builds blobs with all meta pubkeys present. -/
def buildBlobRecords :
    List BorshAccountMeta → Nat → ByteBuf → List (Pubkey × Nat) → List (Pubkey × Nat) →
    AMap → ByteBuf × List (Pubkey × Nat) × AMap
  | [], _, blob, _, offsets, datas => (blob, offsets, datas)
  | meta :: rest, index, blob, indices, offsets, datas =>
    match alookup indices meta.pubkey with
    | some entryIndex =>
      buildBlobRecords rest (index + 1)
        (blob.append (ByteBuf.ofList (natToLeBytes 8 entryIndex))) indices offsets datas
    | none =>
      let accountData := (alookup datas meta.pubkey).getD default
      let datas1 := aremove datas meta.pubkey
      let indices1 := ainsert indices meta.pubkey index
      let offsets1 := ainsert offsets meta.pubkey blob.size
      let blob1 := (blob.append (ByteBuf.ofList
          ([255, boolToByte meta.isSigner, boolToByte meta.isWritable,
            boolToByte accountData.executable] ++
          natToLeBytes 4 accountData.data.length ++
          natToLeBytes 32 meta.pubkey ++ natToLeBytes 32 accountData.owner ++
          natToLeBytes 8 accountData.lamports ++ natToLeBytes 8 accountData.data.length ++
          accountData.data))).append (ByteBuf.zeros MAX_PERMITTED_DATA_INCREASE)
      let blob2 := blob1.append (ByteBuf.zeros (blob1.size % 8))
      let blob3 := blob2.append (ByteBuf.ofList (natToLeBytes 8 accountData.rentEpoch))
      buildBlobRecords rest (index + 1) blob3 indices1 offsets1 datas1

/-- `SolanaAccountsBlob::new` (`executor.rs` lines 50–99): `u64` account
count, the per-meta records, then instruction length, instruction bytes
and the program id. -/
def SolanaAccountsBlob.new (programId : Pubkey) (instruction : List Nat)
    (accountMetas : List BorshAccountMeta) (accountDatas : AMap) : SolanaAccountsBlob :=
  let start := ByteBuf.ofList (natToLeBytes 8 accountMetas.length)
  let built := buildBlobRecords accountMetas 0 start [] [] accountDatas
  { bytes := (built.1.append (ByteBuf.ofList
      (natToLeBytes 8 instruction.length ++ instruction))).append
      (ByteBuf.ofList (natToLeBytes 32 programId))
    accountOffsets := built.2.1
    nonEntrypointedAccountInfos := built.2.2 }

/-- `SolanaAccountsBlob::get_account_data` (`executor.rs` lines 104–126):
reads the header at the recorded offset, slices `data[0 .. data_len]`, and
reads the rent epoch at
`original_data_len + MAX_PERMITTED_DATA_INCREASE + original_data_len % 8`
past the end of the header. -/
def SolanaAccountsBlob.getAccountData (blob : SolanaAccountsBlob) (pubkey : Pubkey) :
    Option BokkenAccountData :=
  (alookup blob.accountOffsets pubkey).map fun accountOffset =>
    let accountDataOffset := accountOffset + ACCOUNT_INFO_HEADER_SIZE
    let accountHeader := parseAccountInfoHeader blob.bytes accountOffset
    let rentEpochOffset := accountDataOffset + accountHeader.originalDataLen +
      MAX_PERMITTED_DATA_INCREASE + accountHeader.originalDataLen % 8
    { lamports := accountHeader.lamports
      data := blob.bytes.slice accountDataOffset accountHeader.dataLen
      owner := accountHeader.owner
      executable := decide (0 < accountHeader.executableByte)
      rentEpoch := leBytesToNat (blob.bytes.slice rentEpochOffset 8) }

/-- `SolanaAccountsBlob::set_account_data` (`executor.rs` lines 134–156).
The Rust function mutates the blob in place and returns
`Result<(), ProgramError>`; the model returns the blob it leaves behind
together with the optional error.  Both error returns happen before any
byte of the blob is written. -/
def SolanaAccountsBlob.setAccountData (blob : SolanaAccountsBlob) (pubkey : Pubkey)
    (accountData : BokkenAccountData) : SolanaAccountsBlob × Option ProgramError :=
  match alookup blob.accountOffsets pubkey with
  | none => (blob, some .uninitializedAccount)
  | some accountOffset =>
    let accountHeader := parseAccountInfoHeader blob.bytes accountOffset
    if accountHeader.originalDataLen + MAX_PERMITTED_DATA_INCREASE < accountData.data.length then
      (blob, some .invalidRealloc)
    else
      let accountDataOffset := accountOffset + ACCOUNT_INFO_HEADER_SIZE
      let b1 := blob.bytes.overwrite (accountOffset + 80)
        (natToLeBytes 8 accountData.data.length)
      let b2 := b1.overwrite (accountOffset + 72) (natToLeBytes 8 accountData.lamports)
      let b3 := b2.overwrite (accountOffset + 40) (natToLeBytes 32 accountData.owner)
      let b4 := b3.overwrite accountDataOffset accountData.data
      ({ blob with bytes := b4 }, none)

/-- `SolanaAccountsBlob::get_account_data_header`. -/
def SolanaAccountsBlob.getAccountDataHeader (blob : SolanaAccountsBlob) (pubkey : Pubkey) :
    Option AccountInfoHeader :=
  (alookup blob.accountOffsets pubkey).map (parseAccountInfoHeader blob.bytes)

/-- `SolanaAccountsBlob::is_writable`: header flag and not executable;
`false` for an unknown pubkey. -/
def SolanaAccountsBlob.isWritable (blob : SolanaAccountsBlob) (pubkey : Pubkey) : Bool :=
  match blob.getAccountDataHeader pubkey with
  | some accountHeader =>
    decide (0 < accountHeader.isWritableByte) && !decide (0 < accountHeader.executableByte)
  | none => false

/-- `SolanaAccountsBlob::is_signer`: header flag; `false` for an unknown
pubkey. -/
def SolanaAccountsBlob.isSigner (blob : SolanaAccountsBlob) (pubkey : Pubkey) : Bool :=
  match blob.getAccountDataHeader pubkey with
  | some accountHeader => decide (0 < accountHeader.isSignerByte)
  | none => false

/-- `SolanaAccountsBlob::get_account_datas`: one `get_account_data` per
recorded offset (the snapshot sent back to the validator). -/
def SolanaAccountsBlob.getAccountDatas (blob : SolanaAccountsBlob) : AMap :=
  blob.accountOffsets.foldl
    (fun result kv => ainsert result kv.1 ((blob.getAccountData kv.1).getD default)) []

/-- The `original_data_len` header field recorded for `pubkey` (0 when the
pubkey is unknown to the blob). -/
def SolanaAccountsBlob.originalDataLenAt (blob : SolanaAccountsBlob) (pubkey : Pubkey) : Nat :=
  match blob.getAccountDataHeader pubkey with
  | some accountHeader => accountHeader.originalDataLen
  | none => 0

/-- Well-formedness of a blob: every recorded offset carries a full record
(header, original data, growth room and trailing rent epoch) inside the
byte buffer.  Blobs produced by `SolanaAccountsBlob::new` satisfy this; it
is the range within which the in-place `copy_from_slice` of
`set_account_data` cannot panic. -/
def SolanaAccountsBlob.wf (blob : SolanaAccountsBlob) : Bool :=
  blob.accountOffsets.all fun kv =>
    decide (kv.2 + ACCOUNT_INFO_HEADER_SIZE +
      (parseAccountInfoHeader blob.bytes kv.2).originalDataLen +
      MAX_PERMITTED_DATA_INCREASE ≤ blob.bytes.size)

/-! Runtime-to-validator messages and the child-side syscall shim
(`debug_env.rs`, `sol_syscalls.rs`, `executor.rs`). -/

/-- `BokkenRuntimeMessage` from `debug_env.rs`: the frames a child
process sends to the validator. -/
inductive BokkenRuntimeMessage where
  | log (nonce : Nat) (message : String)
  | executed (nonce : Nat) (returnCode : Nat) (accountDatas : AMap)
  | crossProgramInvoke (nonce : Nat) (programId : Pubkey) (instruction : List Nat)
      (accountMetas : List BorshAccountMeta) (accountDatas : AMap) (callDepth : Nat)
  deriving Repr, DecidableEq

/-- The per-meta check-and-snapshot loop of
`BokkenSyscalls::sol_invoke_signed` (`sol_syscalls.rs` lines 136–157):
for meta `i`, require `account_infos[i].key == meta.pubkey`, reject
writability escalation with `ProgramError::Custom(0)`, reject signer
escalation (neither signed in the current blob nor a just-derived PDA)
with `MissingRequiredSignature`; on success accumulate the blob's current
account for the meta's pubkey.  `infoKeys` is the list of
`account_infos[_].key`; the source indexes it and panics when it is
shorter than the metas, which no claim below exercises.  The source
`get_account_data(..).expect(..)` panics for a pubkey absent from the
blob; the model substitutes the default account there. -/
def checkCPIMetas (blob : SolanaAccountsBlob) (justSigned : List Pubkey)
    (infoKeys : List Pubkey) :
    Nat → AMap → List BorshAccountMeta → Except ProgramError AMap
  | _, outgoing, [] => .ok outgoing
  | i, outgoing, meta :: rest =>
    if infoKeys[i]? ≠ some meta.pubkey then
      .error .invalidAccountData
    else if meta.isWritable && !blob.isWritable meta.pubkey then
      .error (.custom 0)
    else if meta.isSigner && !blob.isSigner meta.pubkey && !justSigned.contains meta.pubkey then
      .error .missingRequiredSignature
    else
      checkCPIMetas blob justSigned infoKeys (i + 1)
        (ainsert outgoing meta.pubkey ((blob.getAccountData meta.pubkey).getD default)) rest

/-- `BokkenSyscalls::sol_invoke_signed` up to and including the
`CrossProgramInvoke` frame it emits (`sol_syscalls.rs` lines 120–179).
`justSigned` is the set of program-derived addresses obtained from the
supplied signer seeds (`Pubkey::create_program_address` is a collaborator
from `solana_program`; a derivation failure errors out before this point).
On success the result is the emitted frame paired with the local
`outgoing_account_datas` map the source builds from the blob — note the
frame itself carries `account_datas: HashMap::new()` (line 174), not that
snapshot. -/
def solInvokeSigned (programId : Pubkey) (blob : SolanaAccountsBlob) (nonce : Nat)
    (stackHeight : Nat) (instructionData : List Nat)
    (instructionMetas : List BorshAccountMeta) (infoKeys : List Pubkey)
    (justSigned : List Pubkey) : Except ProgramError (BokkenRuntimeMessage × AMap) :=
  (checkCPIMetas blob justSigned infoKeys 0 [] instructionMetas).map fun outgoing =>
    (.crossProgramInvoke nonce programId instructionData instructionMetas [] stackHeight,
      outgoing)

/-- The `account_infos[i].key == meta.pubkey` side condition of the CPI
check loop, for all metas starting at index `i`. -/
def keysMatchFrom (infoKeys : List Pubkey) : Nat → List BorshAccountMeta → Bool
  | _, [] => true
  | i, meta :: rest => (infoKeys[i]? == some meta.pubkey) && keysMatchFrom infoKeys (i + 1) rest

/-- A CPI meta escalating permissions beyond the caller's frame: it
requests writability the current blob does not grant, or signer status
the blob does not grant and the just-derived PDA set does not cover. -/
def escalatesCPI (blob : SolanaAccountsBlob) (justSigned : List Pubkey)
    (meta : BorshAccountMeta) : Bool :=
  (meta.isWritable && !blob.isWritable meta.pubkey) ||
  (meta.isSigner && !blob.isSigner meta.pubkey && !justSigned.contains meta.pubkey)

/-- Result of joining the entrypoint thread
(`thread::spawn(..).join()` in `execute_sol_program_thread`): the `u64`
return code, or the panic payload (`&str`/`String` downcast, when one
exists). -/
inductive EntrypointOutcome where
  | returned (code : Nat)
  | panicked (payloadMessage : Option String)
  deriving Repr, DecidableEq

/-- The panic-payload downcast chain of `execute_sol_program_thread`. -/
def panicMessageOf : Option String → String
  | some s => s
  | none => "<Unknown panic message>"

/-- The `Custom` arm of `impl From<ProgramError> for u64` in
`solana_program`: `Custom(0)` maps to the reserved builtin value
`1 << 32` so that it stays distinct from success. -/
def programErrorCustomToU64 (code : Nat) : Nat := if code = 0 then 2 ^ 32 else code

/-- The tail of `execute_sol_program_thread` (`executor.rs` lines
290–330): after the entrypoint thread is joined, the child snapshots the
blob and sends `Executed` on a normal return, or a
`Log{"Program panicked: …"}` followed by `Executed{Custom(0)}` when the
entrypoint panicked.  The value is the list of frames sent on the
channel, in order.  (The `PopContext` control message goes to the
in-process context task, not onto the channel.) -/
def executeSolProgramFinish (nonce : Nat) (blob : SolanaAccountsBlob) :
    EntrypointOutcome → List BokkenRuntimeMessage
  | .returned code => [.executed nonce code blob.getAccountDatas]
  | .panicked payload =>
    [.log nonce ("Program panicked: " ++ panicMessageOf payload),
     .executed nonce (programErrorCustomToU64 0) blob.getAccountDatas]

/-- `BokkenSolanaContext` (`executor.rs` lines 204–233): one live
invocation's blob, nonce and CPI height. -/
structure BokkenSolanaContext where
  blob : SolanaAccountsBlob
  nonce : Nat
  cpiHeight : Nat

/-- The mutable state of `BokkenSyscalls` (`sol_syscalls.rs` lines
21–28): the child's program id, the stored return data and the context
stack. -/
structure BokkenSyscallsState where
  programId : Pubkey
  returnData : Option (Pubkey × List Nat)
  contexts : List BokkenSolanaContext

/-- `BokkenSyscalls::new`: return data starts out `None`, the context
stack empty. -/
def BokkenSyscallsState.new (programId : Pubkey) : BokkenSyscallsState :=
  { programId, returnData := none, contexts := [] }

/-- The `PushContext` arm of the context task (`sol_syscalls.rs` lines
42–47): pushes the invocation's context and nothing else — in particular
it leaves `return_data` untouched. -/
def BokkenSyscallsState.pushContext (s : BokkenSyscallsState) (ctx : BokkenSolanaContext) :
    BokkenSyscallsState :=
  { s with contexts := s.contexts ++ [ctx] }

/-- The `PopContext` arm: pops the context stack. -/
def BokkenSyscallsState.popContext (s : BokkenSyscallsState) : BokkenSyscallsState :=
  { s with contexts := s.contexts.dropLast }

/-- `BokkenSyscalls::sol_set_return_data`: stores the executing program's
id with the bytes. -/
def BokkenSyscallsState.solSetReturnData (s : BokkenSyscallsState) (data : List Nat) :
    BokkenSyscallsState :=
  { s with returnData := some (s.programId, data) }

/-- `BokkenSyscalls::sol_get_return_data`: returns the stored value. -/
def BokkenSyscallsState.solGetReturnData (s : BokkenSyscallsState) :
    Option (Pubkey × List Nat) :=
  s.returnData

/-! Framed IPC channel (`ipc_comm.rs`). -/

/-- `IPCComm::send_msg`: pushes the `u64` little-endian length prefix and
the payload as two entries of the outbound byte queue. -/
def ipcSendMsg (queue : List (List Nat)) (msgBytes : List Nat) : List (List Nat) :=
  queue ++ [natToLeBytes 8 msgBytes.length, msgBytes]

/-- `IPCCommWriteHandler::write_tick` (`ipc_comm.rs` lines 101–123) for
one `try_write` returning `Ok(n)`: pops the front buffer, writes its
first `n` bytes to the stream, and when `n` is short re-queues
`send_data[send_data.len() - n ..]` — the **last** `n` bytes — at the
front.  `accepted` is the byte count the OS accepts; the value is the
remaining queue paired with the bytes that reached the stream.  (The
`WouldBlock` branch re-queues the buffer unchanged and writes nothing.) -/
def ipcWriteTick (queue : List (List Nat)) (accepted : Nat) :
    List (List Nat) × List Nat :=
  match queue with
  | [] => ([], [])
  | sendData :: rest =>
    let n := min accepted sendData.length
    if n < sendData.length then
      (sendData.drop (sendData.length - n) :: rest, sendData.take n)
    else
      (rest, sendData)

/-- Drives `write_tick` over a schedule of per-tick accepted byte counts,
collecting the byte stream as the receiving end sees it. -/
def ipcRunWrites (queue : List (List Nat)) : List Nat → List Nat
  | [] => []
  | accepted :: rest =>
    let step := ipcWriteTick queue accepted
    step.2 ++ ipcRunWrites step.1 rest

/-- `IPCCommReadHandler::read_tick` reassembly over a received byte
stream: repeatedly read an 8-byte little-endian length and then that many
payload bytes; an incomplete trailing frame never completes.  The value
is the sequence of payloads the reader's message queue receives. -/
def decodeFramesGo (fuel : Nat) (stream : List Nat) : List (List Nat) :=
  match fuel with
  | 0 => []
  | fuel + 1 =>
    if stream.length < 8 then []
    else
      let size := leBytesToNat (stream.take 8)
      let rest := stream.drop 8
      if rest.length < size then []
      else rest.take size :: decodeFramesGo fuel (rest.drop size)

/-- Frame reassembly over a complete stream.  Each decoded frame consumes
at least 8 bytes, so `stream.length` steps of fuel always suffice. -/
def decodeFrames (stream : List Nat) : List (List Nat) :=
  decodeFramesGo stream.length stream

/-! Built-in system program (`native_program_stubs.rs`,
`native_program_stubs/system_program.rs`). -/

/-- `assert_account_meta` (`native_program_stubs.rs` lines 6–22): fetch
the meta at `index`, check the required writable/signer flags, and
`remove` the referenced account from the map.  The model returns the map
left behind along with the `(pubkey, account)` pair. -/
def assertAccountMeta (metas : List BorshAccountMeta) (datas : AMap) (index : Nat)
    (writable signer : Bool) :
    Except ProgramError (Pubkey × BokkenAccountData × AMap) :=
  match metas[index]? with
  | none => .error .notEnoughAccountKeys
  | some meta =>
    if writable && !meta.isWritable then .error (.custom 0)
    else if signer && !meta.isSigner then .error .missingRequiredSignature
    else
      match alookup datas meta.pubkey with
      | none => .error .notEnoughAccountKeys
      | some accountData => .ok (meta.pubkey, accountData, aremove datas meta.pubkey)

/-- The `SystemInstruction::Transfer` arm of `DebugSystemProgram::exec`
(`system_program.rs` lines 73–86), exactly as written: **both**
`assert_account_meta` calls pass account index 0.  The value is the
updated account map. -/
def debugSystemProgramTransfer (lamports : Nat) (accountMetas : List BorshAccountMeta)
    (accountDatas : AMap) : Except ProgramError AMap := do
  let (fromKey, fromAccount, datas1) ← assertAccountMeta accountMetas accountDatas 0 true true
  let (toKey, toAccount, datas2) ← assertAccountMeta accountMetas datas1 0 true false
  let moved := fromAccount.moveLamports toAccount lamports
  match moved.2.2 with
  | some e => .error e
  | none => .ok (ainsert (ainsert datas2 fromKey moved.1) toKey moved.2.1)

/-! Transaction executor (`debug_ledger.rs`). -/

/-- The rent sysvar's pubkey (`solana_sdk::sysvar::rent::id()`): a fixed
32-byte constant; any natural distinct from `clockSysvarId` models it. -/
def rentSysvarId : Pubkey := 901

/-- The clock sysvar's pubkey (`solana_sdk::sysvar::clock::id()`). -/
def clockSysvarId : Pubkey := 902

/-- `BokkenLedgerInstruction` from `debug_ledger.rs`. -/
structure BokkenLedgerInstruction where
  programId : Pubkey
  accountMetas : List BorshAccountMeta
  data : List Nat

/-- The `BokkenError` variants reachable from `execute_instructions`. -/
inductive BokkenError where
  | insufficientFundsForFee
  | accountNotFound
  | instructionExecError (index : Nat) (returnCode : Nat) (logs : List String)
  deriving Repr, DecidableEq

/-- Abstraction of `ProgramCaller::call_program`: from
`(program_id, instruction data, account metas, account map, call_depth)`
to `(return_code, logs, account map)`.  The real callee spans the IPC
channel or a built-in; `execute_instruction` treats it as exactly this
interface. -/
abbrev ProgramCallOracle :=
  Pubkey → List Nat → List BorshAccountMeta → AMap → Nat → Nat × List String × AMap

/-- `HashSet::insert` on the unique-signer set (order-preserving). -/
def insertUniqueSig (sigs : List Pubkey) (p : Pubkey) : List Pubkey :=
  if sigs.contains p then sigs else sigs ++ [p]

/-- Signer collection over one instruction's metas. -/
def uniqueSigsMetas (sigs : List Pubkey) : List BorshAccountMeta → List Pubkey
  | [] => sigs
  | meta :: rest =>
    uniqueSigsMetas (if meta.isSigner then insertUniqueSig sigs meta.pubkey else sigs) rest

/-- Signer collection over all instructions. -/
def uniqueSigsIxs (sigs : List Pubkey) : List BokkenLedgerInstruction → List Pubkey
  | [] => sigs
  | ix :: rest => uniqueSigsIxs (uniqueSigsMetas sigs ix.accountMetas) rest

/-- The `unique_sigs` set of `execute_instructions`: the fee payer plus
every meta marked `is_signer` across all instructions. -/
def uniqueSigners (feePayer : Pubkey) (ixs : List BokkenLedgerInstruction) : List Pubkey :=
  uniqueSigsIxs [feePayer] ixs

/-- Account loading over one instruction's metas: read each meta's
account unless already loaded. -/
def loadMetas (ledger : Pubkey → BokkenAccountData) (m : AMap) :
    List BorshAccountMeta → AMap
  | [] => m
  | meta :: rest =>
    loadMetas ledger
      (if acontains m meta.pubkey then m else ainsert m meta.pubkey (ledger meta.pubkey)) rest

/-- Account loading over all instructions. -/
def loadIxs (ledger : Pubkey → BokkenAccountData) (m : AMap) :
    List BokkenLedgerInstruction → AMap
  | [] => m
  | ix :: rest => loadIxs ledger (loadMetas ledger m ix.accountMetas) rest

/-- The `account_datas` block of `execute_instructions` (`debug_ledger.rs`
lines 353–378): load the fee payer, the rent and clock sysvars, then every
meta's account.  `ledger` abstracts `read_account` (files plus sysvar and
ghost-program synthesis). -/
def loadAccounts (ledger : Pubkey → BokkenAccountData) (feePayer : Pubkey)
    (ixs : List BokkenLedgerInstruction) : AMap :=
  let m0 := ainsert [] feePayer (ledger feePayer)
  let m1 := ainsert m0 rentSysvarId (ledger rentSysvarId)
  let m2 := ainsert m1 clockSysvarId (ledger clockSysvarId)
  loadIxs ledger m2 ixs

/-- The meta loop of `execute_instruction`'s `account_datas_for_ix` block:
move each meta's account from the transaction state into the
per-instruction map (`state.remove(..).ok_or(AccountNotFound)?`),
skipping pubkeys already gathered. -/
def gatherMetas : List BorshAccountMeta → AMap → AMap → Except BokkenError (AMap × AMap)
  | [], m, st => .ok (m, st)
  | meta :: rest, m, st =>
    if acontains m meta.pubkey then gatherMetas rest m st
    else
      match alookup st meta.pubkey with
      | none => .error .accountNotFound
      | some accountData =>
        gatherMetas rest (ainsert m meta.pubkey accountData) (aremove st meta.pubkey)

/-- The `account_datas_for_ix` block of `execute_instruction`
(`debug_ledger.rs` lines 249–270): start from the rent and clock sysvars
(the source's `state.get(..).unwrap()` panics when they are absent; they
are always present in `execute_instructions`' call contexts), then gather
the metas' accounts out of the state. -/
def gatherAccountDatasForIx (state : AMap) (metas : List BorshAccountMeta) :
    Except BokkenError (AMap × AMap) :=
  let m0 := ainsert [] rentSysvarId ((alookup state rentSysvarId).getD default)
  let m1 := ainsert m0 clockSysvarId ((alookup state clockSysvarId).getD default)
  gatherMetas metas m1 state

/-- `BokkenLedger::execute_instruction` (`debug_ledger.rs` lines
242–286): gather the per-instruction accounts, call the program, and
re-insert every returned account into the state. -/
def executeInstructionM (oracle : ProgramCallOracle) (ix : BokkenLedgerInstruction)
    (state : AMap) : Except BokkenError ((Nat × List String) × AMap) :=
  (gatherAccountDatasForIx state ix.accountMetas).map fun gathered =>
    let result := oracle ix.programId ix.data ix.accountMetas gathered.1 1
    ((result.1, result.2.1), ainsertAll gathered.2 result.2.2)

/-- The instruction loop of `execute_instructions` (`debug_ledger.rs`
lines 392–398): run each instruction at depth 1, extend the transaction
log, and abort with `InstructionExecError(index, code, logs)` on the
first non-zero return code. -/
def runInstructions (oracle : ProgramCallOracle) :
    List BokkenLedgerInstruction → Nat → AMap → List String →
    Except BokkenError (AMap × List String)
  | [], _, st, logs => .ok (st, logs)
  | ix :: rest, i, st, logs =>
    match executeInstructionM oracle ix st with
    | .error e => .error e
    | .ok (codeAndLogs, st1) =>
      let logs1 := logs ++ codeAndLogs.2
      if codeAndLogs.1 ≠ 0 then .error (.instructionExecError i codeAndLogs.1 logs1)
      else runInstructions oracle rest (i + 1) st1 logs1

/-- `BokkenLedger::save_account` stores the default (absent) account when
the saved account's lamports are zero. -/
def saveAccountValue (accountData : BokkenAccountData) : BokkenAccountData :=
  if accountData.lamports = 0 then default else accountData

/-- The `edited_accounts` fold of `execute_instructions` (`debug_ledger.rs`
lines 399–411): for every loaded account whose final value differs from
the loaded value, record the final value.  When `commit_changes` is set,
exactly these accounts are passed to `save_account`. -/
def editedFold (changed : AMap) : List (Pubkey × BokkenAccountData) → AMap → AMap
  | [], result => result
  | (pubkey, oldData) :: rest, result =>
    let newData := (alookup changed pubkey).getD default
    editedFold changed rest (if newData = oldData then result else ainsert result pubkey newData)

/-- `BokkenLedger::execute_instructions` (`debug_ledger.rs` lines
342–431) with `commit_changes = true`, abstracting `call_program` by an
oracle: collect unique signers, load accounts, deduct
`5000 * |unique_signers|` from the fee payer (`checked_sub`, failing with
`InsufficientFundsForFee`), run the instructions in order, and on success
return the edited (= committed) accounts with the transaction log. -/
def executeInstructionsM (ledger : Pubkey → BokkenAccountData) (oracle : ProgramCallOracle)
    (feePayer : Pubkey) (ixs : List BokkenLedgerInstruction) :
    Except BokkenError (AMap × List String) :=
  let uniqueSigs := uniqueSigners feePayer ixs
  let accountDatas := loadAccounts ledger feePayer ixs
  let feePayerData := (alookup accountDatas feePayer).getD default
  if feePayerData.lamports < 5000 * uniqueSigs.length then .error .insufficientFundsForFee
  else
    let accountDatasChanged := ainsert accountDatas feePayer
      { feePayerData with lamports := feePayerData.lamports - 5000 * uniqueSigs.length }
    match runInstructions oracle ixs 0 accountDatasChanged [] with
    | .error e => .error e
    | .ok (changedFinal, logs) => .ok (editedFold changedFinal accountDatas [], logs)

/-- C10: `move_lamports` returns `InsufficientFunds` leaving both accounts
unchanged when the source balance is short; otherwise it succeeds, moving
exactly `amount` lamports from `a` to `b` and preserving the sum of the two
balances (absent `u64` overflow of the destination). -/
theorem moveLamports_spec (a b : BokkenAccountData) (amount : Nat) :
    (a.lamports < amount →
      BokkenAccountData.moveLamports a b amount = (a, b, some .insufficientFunds))
    ∧ (amount ≤ a.lamports → b.lamports + amount < 2 ^ 64 →
      BokkenAccountData.moveLamports a b amount =
        ({ a with lamports := a.lamports - amount },
         { b with lamports := b.lamports + amount }, none)
      ∧ (a.lamports - amount) + (b.lamports + amount) = a.lamports + b.lamports) := by
  constructor
  · intro hlt
    simp [BokkenAccountData.moveLamports, hlt]
  · intro hle hov
    constructor
    · have hov2 : b.lamports + amount < 18446744073709551616 := by omega
      simp [BokkenAccountData.moveLamports, Nat.not_lt.mpr hle, Nat.mod_eq_of_lt hov2]
    · omega

/-- Witness for `moveLamports_spec`: both branches evaluated at concrete
accounts. -/
theorem moveLamports_spec_witness :
    (BokkenAccountData.moveLamports
        { lamports := 100, data := [], owner := 0, executable := false, rentEpoch := 0 }
        { lamports := 7, data := [], owner := 0, executable := false, rentEpoch := 0 } 30 =
      ({ lamports := 70, data := [], owner := 0, executable := false, rentEpoch := 0 },
       { lamports := 37, data := [], owner := 0, executable := false, rentEpoch := 0 }, none))
    ∧ (BokkenAccountData.moveLamports
        { lamports := 10, data := [], owner := 0, executable := false, rentEpoch := 0 }
        { lamports := 7, data := [], owner := 0, executable := false, rentEpoch := 0 } 30 =
      ({ lamports := 10, data := [], owner := 0, executable := false, rentEpoch := 0 },
       { lamports := 7, data := [], owner := 0, executable := false, rentEpoch := 0 },
       some .insufficientFunds)) := by
  refine ⟨((moveLamports_spec _ _ 30).2 (by decide) (by decide)).1, ?_⟩
  exact (moveLamports_spec _ _ 30).1 (by decide)

/-- C5: for `SystemInstruction::Transfer` with metas
`[funder (writable, signer), recipient (writable)]`, both accounts
present and the funder's balance ample, the claim expects `Ok` with the
lamports moved.  The code's Transfer arm passes account index 0 to
**both** `assert_account_meta` calls; the first call removes the funder's
entry from the map, so the second lookup (again at index 0, the funder)
fails and the whole instruction returns `NotEnoughAccountKeys` with no
transfer. -/
theorem transfer_wrong_index_eval :
    debugSystemProgramTransfer 10
      [{ pubkey := 1, isSigner := true, isWritable := true },
       { pubkey := 2, isSigner := false, isWritable := true }]
      [(1, { lamports := 100, data := [], owner := 0, executable := false, rentEpoch := 0 }),
       (2, { lamports := 0, data := [], owner := 0, executable := false, rentEpoch := 0 })] =
    .error .notEnoughAccountKeys := by
  rfl

/-- C3: building a blob from two metas and snapshotting it does not
return the second account's `rent_epoch`.  The writer pads each record
with `blob.len() % 8` zero bytes while the reader skips
`original_data_len % 8` bytes; the two quantities agree only when the
record starts 8-byte aligned, which fails for the second record here
(first account's data is 1 byte, so the second record starts at offset
10346 ≡ 2 mod 8).  The snapshot reads `rent_epoch = 65536` for an input
`rent_epoch = 1`, while all other common fields survive the round
trip. -/
theorem blob_roundtrip_rent_epoch_eval :
    alookup (SolanaAccountsBlob.new 99 [7]
      [{ pubkey := 5, isSigner := true, isWritable := true },
       { pubkey := 6, isSigner := false, isWritable := true }]
      [(5, { lamports := 11, data := [0], owner := 4, executable := false, rentEpoch := 0 }),
       (6, { lamports := 22, data := [], owner := 4, executable := false,
             rentEpoch := 1 })]).getAccountDatas 6 =
    some { lamports := 22, data := [], owner := 4, executable := false, rentEpoch := 65536 } := by
  decide

/-- C2: `sol_invoke_signed` with one in-blob meta passes its permission
checks and emits a `CrossProgramInvoke` frame whose `account_datas` field
is the **empty** map (`HashMap::new()` at `sol_syscalls.rs` line 174),
even though the snapshot of the referenced account
(`outgoing_account_datas`, the second component below) was read from the
blob and is non-empty.  The claim expects the frame to carry that
snapshot. -/
theorem cpi_frame_account_datas_empty_eval :
    solInvokeSigned 99
      (SolanaAccountsBlob.new 99 [7] [{ pubkey := 5, isSigner := true, isWritable := true }]
        [(5, { lamports := 11, data := [1], owner := 4, executable := false, rentEpoch := 9 })])
      3 1 [2] [{ pubkey := 5, isSigner := false, isWritable := false }] [5] [] =
    .ok (.crossProgramInvoke 3 99 [2]
        [{ pubkey := 5, isSigner := false, isWritable := false }] [] 1,
      [(5, { lamports := 11, data := [1], owner := 4, executable := false,
             rentEpoch := 9 })]) := by
  rfl

/-- C4: queue the payloads `[5, 6, 7]` and `[9]`; let the OS accept the
whole first length prefix, then only 1 byte of the `[5, 6, 7]` body, then
everything else.  `write_tick` re-queues the **last** byte (`[7]`)
instead of the remaining two (`[6, 7]`), so the wire carries
`5, 7` for the 3-byte body and the decoder absorbs the next frame's
first prefix byte: the receiver decodes the single corrupted payload
`[5, 7, 1]` instead of `[5, 6, 7]` followed by `[9]`. -/
theorem ipc_partial_write_corruption_eval :
    decodeFrames (ipcRunWrites (ipcSendMsg (ipcSendMsg [] [5, 6, 7]) [9]) [8, 1, 8, 8, 8]) =
    [[5, 7, 1]] := by
  decide

/-- C8: whenever the entrypoint thread terminates by panicking with
message `m`, the child sends exactly one `Log` frame reading
`"Program panicked: " ++ m` followed by exactly one `Executed` frame
whose return code is the `u64` encoding of `ProgramError::Custom(0)`
(`1 << 32 = 4294967296`) and whose accounts are the blob's current
snapshot, in that order. -/
theorem panic_frames_spec (nonce : Nat) (blob : SolanaAccountsBlob) (message : String) :
    executeSolProgramFinish nonce blob (.panicked (some message)) =
    [.log nonce ("Program panicked: " ++ message),
     .executed nonce 4294967296 blob.getAccountDatas] := by
  simp [executeSolProgramFinish, panicMessageOf, programErrorCustomToU64]

/-- C9 (counterexample): return data survives a `PushContext`.  After the
child stores return data in one invocation and the next `Invoke` pushes a
fresh context, `sol_get_return_data` still returns the stale value
instead of `None`: nothing in the `PushContext` handler clears
`return_data`. -/
theorem return_data_not_cleared_eval :
    (((BokkenSyscallsState.new 7).solSetReturnData [1]).pushContext
      { blob := SolanaAccountsBlob.new 7 [] [] [], nonce := 0, cpiHeight := 1 }).solGetReturnData =
    some (7, [1]) := by
  rfl

/-- C9 (amended): return data starts out `None` when the syscall state is
created; `sol_set_return_data` stores the executing program's id with the
bytes and is the only operation that changes it; pushing a context on
`Invoke` and popping one leave it untouched, so data set in a previous
invocation remains visible at the start of the next. -/
theorem return_data_lifecycle_spec (programId : Pubkey) :
    (BokkenSyscallsState.new programId).solGetReturnData = none
    ∧ (∀ (s : BokkenSyscallsState) (data : List Nat),
        (s.solSetReturnData data).solGetReturnData = some (s.programId, data))
    ∧ (∀ (s : BokkenSyscallsState) (ctx : BokkenSolanaContext),
        (s.pushContext ctx).solGetReturnData = s.solGetReturnData)
    ∧ (∀ s : BokkenSyscallsState, s.popContext.solGetReturnData = s.solGetReturnData) :=
  ⟨rfl, fun _ _ => rfl, fun _ _ => rfl, fun _ => rfl⟩

/-- `contains_key` agrees with `get` being `Some`. -/
theorem acontains_eq {α : Type} (m : List (Pubkey × α)) (k : Pubkey) :
    acontains m k = (alookup m k).isSome := by
  induction m with
  | nil => rfl
  | cons kv rest ih =>
    obtain ⟨k', v⟩ := kv
    by_cases h : k' = k <;> simp [acontains, alookup, h, ih]

/-- C6: `set_account_data(p, a)` succeeds exactly when `p` has a recorded
offset and `a.data` fits within `original_data_len + MAX_PERMITTED_DATA_INCREASE`;
overgrowth on a known pubkey fails with `InvalidRealloc`, an unknown
pubkey fails with `UninitializedAccount`, and both failures leave the
blob untouched (the source returns before writing any byte).  The
well-formedness hypothesis pins the range inside which the success
path's in-place `copy_from_slice` stays within the buffer, which is what
makes the pure model agree with the mutating source. -/
theorem setAccountData_spec (blob : SolanaAccountsBlob) (pubkey : Pubkey)
    (accountData : BokkenAccountData) (_hwf : blob.wf = true) :
    ((blob.setAccountData pubkey accountData).2 = none ↔
      (acontains blob.accountOffsets pubkey = true ∧
        accountData.data.length ≤
          blob.originalDataLenAt pubkey + MAX_PERMITTED_DATA_INCREASE))
    ∧ (acontains blob.accountOffsets pubkey = true →
        blob.originalDataLenAt pubkey + MAX_PERMITTED_DATA_INCREASE <
          accountData.data.length →
        blob.setAccountData pubkey accountData = (blob, some .invalidRealloc))
    ∧ (acontains blob.accountOffsets pubkey = false →
        blob.setAccountData pubkey accountData = (blob, some .uninitializedAccount)) := by
  have hc := acontains_eq blob.accountOffsets pubkey
  cases h : alookup blob.accountOffsets pubkey with
  | none =>
    rw [h] at hc
    refine ⟨?_, ?_, ?_⟩
    · simp [SolanaAccountsBlob.setAccountData, h, hc]
    · intro habs
      rw [habs] at hc
      simp at hc
    · intro _
      simp [SolanaAccountsBlob.setAccountData, h]
  | some off =>
    rw [h] at hc
    have horig : blob.originalDataLenAt pubkey =
        (parseAccountInfoHeader blob.bytes off).originalDataLen := by
      simp [SolanaAccountsBlob.originalDataLenAt, SolanaAccountsBlob.getAccountDataHeader, h]
    by_cases hgt : (parseAccountInfoHeader blob.bytes off).originalDataLen +
        MAX_PERMITTED_DATA_INCREASE < accountData.data.length
    · refine ⟨?_, ?_, ?_⟩
      · simp [SolanaAccountsBlob.setAccountData, h, hgt, hc, horig, Nat.not_le.mpr hgt]
      · intro _ _
        simp [SolanaAccountsBlob.setAccountData, h, hgt]
      · intro habs
        rw [habs] at hc
        simp at hc
    · refine ⟨?_, ?_, ?_⟩
      · simp [SolanaAccountsBlob.setAccountData, h, hgt, hc, horig, Nat.not_lt.mp hgt]
      · intro _ habs
        rw [horig] at habs
        exact absurd habs hgt
      · intro habs
        rw [habs] at hc
        simp at hc

/-- Witness for `setAccountData_spec`: a concrete two-account blob is
well-formed; writing 3 bytes into an account built with 2 bytes of data
succeeds, growing past `original_data_len + MAX_PERMITTED_DATA_INCREASE`
fails with `InvalidRealloc`, and an unknown pubkey fails with
`UninitializedAccount`. -/
theorem setAccountData_spec_witness :
    ((SolanaAccountsBlob.new 99 [7] [{ pubkey := 5, isSigner := true, isWritable := true }]
        [(5, { lamports := 11, data := [1, 2], owner := 4, executable := false,
               rentEpoch := 0 })]).wf = true)
    ∧ ((SolanaAccountsBlob.new 99 [7] [{ pubkey := 5, isSigner := true, isWritable := true }]
        [(5, { lamports := 11, data := [1, 2], owner := 4, executable := false,
               rentEpoch := 0 })]).setAccountData 5
        { lamports := 1, data := [8, 8, 8], owner := 4, executable := false,
          rentEpoch := 0 }).2 = none
    ∧ ((SolanaAccountsBlob.new 99 [7] [{ pubkey := 5, isSigner := true, isWritable := true }]
        [(5, { lamports := 11, data := [1, 2], owner := 4, executable := false,
               rentEpoch := 0 })]).setAccountData 11
        { lamports := 1, data := [], owner := 4, executable := false, rentEpoch := 0 }) =
      (SolanaAccountsBlob.new 99 [7] [{ pubkey := 5, isSigner := true, isWritable := true }]
        [(5, { lamports := 11, data := [1, 2], owner := 4, executable := false,
               rentEpoch := 0 })], some .uninitializedAccount) := by
  refine ⟨by decide, ?_, ?_⟩
  · exact (setAccountData_spec _ 5 _ (by decide)).1.mpr ⟨by decide, by decide⟩
  · exact (setAccountData_spec _ 11 _ (by decide)).2.2 (by decide)

/-- The CPI check loop errors on any escalating meta: provided every
meta's key matches its account info, the first failing check is either
the writability check (`Custom(0)`) or the signer check
(`MissingRequiredSignature`). -/
theorem checkCPIMetas_escalation (blob : SolanaAccountsBlob) (justSigned : List Pubkey)
    (infoKeys : List Pubkey) :
    ∀ (metas : List BorshAccountMeta) (i : Nat) (outgoing : AMap),
      keysMatchFrom infoKeys i metas = true →
      (∃ meta ∈ metas, escalatesCPI blob justSigned meta = true) →
      ∃ e, checkCPIMetas blob justSigned infoKeys i outgoing metas = .error e ∧
        (e = .custom 0 ∨ e = .missingRequiredSignature) := by
  intro metas
  induction metas with
  | nil =>
    intro i outgoing _ hesc
    simp at hesc
  | cons meta rest ih =>
    intro i outgoing hkeys hesc
    simp only [keysMatchFrom, Bool.and_eq_true, beq_iff_eq] at hkeys
    obtain ⟨hkey, hkeysRest⟩ := hkeys
    by_cases hw : (meta.isWritable && !blob.isWritable meta.pubkey) = true
    · refine ⟨.custom 0, ?_, Or.inl rfl⟩
      simp [checkCPIMetas, hkey, hw]
    · have hw3 : meta.isWritable = false ∨ blob.isWritable meta.pubkey = true := by
        by_cases h1 : meta.isWritable
        · right
          by_contra h2
          exact hw (by simp [h1, Bool.eq_false_iff.mpr h2])
        · exact Or.inl (Bool.eq_false_iff.mpr h1)
      by_cases hs : (meta.isSigner && !blob.isSigner meta.pubkey &&
          !justSigned.contains meta.pubkey) = true
      · refine ⟨.missingRequiredSignature, ?_, Or.inr rfl⟩
        simp only [Bool.and_eq_true, Bool.not_eq_true'] at hs
        have hnm : meta.pubkey ∉ justSigned := by simpa using hs.2
        rcases hw3 with h1 | h1 <;>
          simp [checkCPIMetas, hkey, h1, hs.1.1, hs.1.2, hnm]
      · have hs3 : meta.isSigner = false ∨ blob.isSigner meta.pubkey = true ∨
            meta.pubkey ∈ justSigned := by
          by_cases h1 : meta.isSigner
          · by_cases h2 : blob.isSigner meta.pubkey
            · exact Or.inr (Or.inl h2)
            · right; right
              by_contra h3
              exact hs (by simp [h1, Bool.eq_false_iff.mpr h2, h3])
          · exact Or.inl (Bool.eq_false_iff.mpr h1)
        have hrest : ∃ m ∈ rest, escalatesCPI blob justSigned m = true := by
          rcases hesc with ⟨m, hm, he⟩
          rcases List.mem_cons.mp hm with heq | hmr
          · subst heq
            exact absurd (Bool.or_eq_true .. |>.mp he) (by
              intro hab
              rcases hab with hab | hab
              · exact hw hab
              · exact hs hab)
          · exact ⟨m, hmr, he⟩
        obtain ⟨e, heq, hor⟩ := ih (i + 1)
          (ainsert outgoing meta.pubkey ((blob.getAccountData meta.pubkey).getD default))
          hkeysRest hrest
        refine ⟨e, ?_, hor⟩
        rcases hw3 with h1 | h1 <;> rcases hs3 with h2 | h2 | h2 <;>
          simp [checkCPIMetas, hkey, h1, h2, heq]

/-- C7: a CPI whose metas request writability the current blob does not
grant, or signer status neither granted by the blob nor covered by the
just-derived PDA set, makes `sol_invoke_signed` return an error —
`Custom(0)` for writability escalation, `MissingRequiredSignature` for
signer escalation — and no `CrossProgramInvoke` frame is produced (the
frame exists only in the `.ok` result). -/
theorem cpi_escalation_rejected (programId : Pubkey) (blob : SolanaAccountsBlob)
    (nonce stackHeight : Nat) (instructionData : List Nat)
    (instructionMetas : List BorshAccountMeta) (infoKeys justSigned : List Pubkey)
    (hkeys : keysMatchFrom infoKeys 0 instructionMetas = true)
    (hesc : ∃ meta ∈ instructionMetas, escalatesCPI blob justSigned meta = true) :
    ∃ e, solInvokeSigned programId blob nonce stackHeight instructionData
        instructionMetas infoKeys justSigned = .error e ∧
      (e = .custom 0 ∨ e = .missingRequiredSignature) := by
  obtain ⟨e, heq, hor⟩ :=
    checkCPIMetas_escalation blob justSigned infoKeys instructionMetas 0 [] hkeys hesc
  exact ⟨e, by simp [solInvokeSigned, heq, Except.map], hor⟩

/-- Witness for `cpi_escalation_rejected`: a meta requesting signer
status for an account the blob does not consider signed (and an empty
PDA set) is rejected before any frame is produced. -/
theorem cpi_escalation_rejected_witness :
    ∃ e, solInvokeSigned 99
        (SolanaAccountsBlob.new 99 []
          [{ pubkey := 5, isSigner := false, isWritable := true }]
          [(5, { lamports := 1, data := [], owner := 4, executable := false,
                 rentEpoch := 0 })])
        0 1 [] [{ pubkey := 5, isSigner := true, isWritable := false }] [5] [] = .error e ∧
      (e = .custom 0 ∨ e = .missingRequiredSignature) :=
  cpi_escalation_rejected 99 _ 0 1 [] _ [5] [] (by decide) (by decide)

/-- `insert` then `get` at the same key. -/
theorem alookup_ainsert_self {α : Type} (m : List (Pubkey × α)) (k : Pubkey) (v : α) :
    alookup (ainsert m k v) k = some v := by
  induction m with
  | nil => simp [ainsert, alookup]
  | cons kv rest ih =>
    obtain ⟨k', v'⟩ := kv
    by_cases h : k' = k <;> simp [ainsert, alookup, h, ih]

/-- `insert` does not disturb other keys. -/
theorem alookup_ainsert_ne {α : Type} (m : List (Pubkey × α)) {k k' : Pubkey}
    (h : k ≠ k') (v : α) : alookup (ainsert m k v) k' = alookup m k' := by
  induction m with
  | nil => simp [ainsert, alookup, h]
  | cons kv rest ih =>
    obtain ⟨a, b⟩ := kv
    by_cases ha : a = k
    · subst ha
      simp [ainsert, alookup, h]
    · simp [ainsert, alookup, ha, ih]

/-- A key stays present after any `insert`. -/
theorem acontains_ainsert_of {α : Type} {m : List (Pubkey × α)} {k' : Pubkey}
    (h : acontains m k' = true) (k : Pubkey) (v : α) :
    acontains (ainsert m k v) k' = true := by
  by_cases he : k = k'
  · subst he
    rw [acontains_eq, alookup_ainsert_self]
    rfl
  · rw [acontains_eq, alookup_ainsert_ne _ he, ← acontains_eq]
    exact h

/-- The inserted key is present. -/
theorem acontains_ainsert_self {α : Type} (m : List (Pubkey × α)) (k : Pubkey) (v : α) :
    acontains (ainsert m k v) k = true := by
  rw [acontains_eq, alookup_ainsert_self]
  rfl

/-- `remove` does not disturb other keys. -/
theorem alookup_aremove_ne {α : Type} (m : List (Pubkey × α)) {k k' : Pubkey}
    (h : k ≠ k') : alookup (aremove m k) k' = alookup m k' := by
  induction m with
  | nil => simp [aremove]
  | cons kv rest ih =>
    obtain ⟨a, b⟩ := kv
    by_cases ha : a = k
    · subst ha
      simp [aremove, alookup, h]
    · simp [aremove, alookup, ha, ih]

/-- `remove` keeps other keys' presence unchanged. -/
theorem acontains_aremove_ne {α : Type} (m : List (Pubkey × α)) {k k' : Pubkey}
    (h : k ≠ k') : acontains (aremove m k) k' = acontains m k' := by
  rw [acontains_eq, acontains_eq, alookup_aremove_ne _ h]

/-- Inserting bindings that do not mention `k` leaves `k`'s lookup
unchanged. -/
theorem alookup_ainsertAll_of_none {k : Pubkey} :
    ∀ src : AMap, alookup src k = none →
      ∀ dst : AMap, alookup (ainsertAll dst src) k = alookup dst k := by
  intro src
  induction src with
  | nil =>
    intro _ dst
    simp [ainsertAll]
  | cons kv rest ih =>
    obtain ⟨k1, v1⟩ := kv
    intro hnone dst
    by_cases h1 : k1 = k
    · simp [alookup, h1] at hnone
    · simp only [alookup, h1, if_false] at hnone
      have : ainsertAll dst ((k1, v1) :: rest) = ainsertAll (ainsert dst k1 v1) rest := by
        simp [ainsertAll]
      rw [this, ih hnone, alookup_ainsert_ne _ h1]

/-- Presence in the destination survives `ainsertAll`. -/
theorem acontains_ainsertAll_left :
    ∀ (src dst : AMap) (k : Pubkey), acontains dst k = true →
      acontains (ainsertAll dst src) k = true := by
  intro src
  induction src with
  | nil =>
    intro dst k h
    simpa [ainsertAll] using h
  | cons kv rest ih =>
    intro dst k h
    have : ainsertAll dst (kv :: rest) = ainsertAll (ainsert dst kv.1 kv.2) rest := by
      simp [ainsertAll]
    rw [this]
    exact ih _ _ (acontains_ainsert_of h _ _)

/-- Every source key is present after `ainsertAll`. -/
theorem acontains_ainsertAll_right :
    ∀ (src dst : AMap) (k : Pubkey), acontains src k = true →
      acontains (ainsertAll dst src) k = true := by
  intro src
  induction src with
  | nil =>
    intro dst k h
    simp [acontains] at h
  | cons kv rest ih =>
    intro dst k h
    obtain ⟨k1, v1⟩ := kv
    have hstep : ainsertAll dst ((k1, v1) :: rest) = ainsertAll (ainsert dst k1 v1) rest := by
      simp [ainsertAll]
    rw [hstep]
    by_cases h1 : k1 = k
    · subst h1
      exact acontains_ainsertAll_left _ _ _ (acontains_ainsert_self _ _ _)
    · simp only [acontains, h1, if_false] at h
      exact ih _ _ h

/-- The keys of an `ainsert` come from the inserted key or the original
map. -/
theorem mem_keys_ainsert {α : Type} :
    ∀ (m : List (Pubkey × α)) (k : Pubkey) (v : α) (x : Pubkey),
      x ∈ (ainsert m k v).map Prod.fst → x = k ∨ x ∈ m.map Prod.fst := by
  intro m
  induction m with
  | nil =>
    intro k v x hx
    simp [ainsert] at hx
    exact Or.inl hx
  | cons kv rest ih =>
    obtain ⟨k1, v1⟩ := kv
    intro k v x hx
    by_cases h1 : k1 = k
    · simp [ainsert, h1] at hx
      rcases hx with hx | hx
      · exact Or.inl hx
      · exact Or.inr (by simp [hx])
    · simp only [ainsert, h1, if_false, List.map_cons, List.mem_cons] at hx
      rcases hx with hx | hx
      · exact Or.inr (by simp [hx])
      · rcases ih k v x hx with hx | hx
        · exact Or.inl hx
        · exact Or.inr (by simp; right; simpa using hx)

/-- `ainsert` preserves distinctness of keys. -/
theorem ainsert_keys_nodup {α : Type} :
    ∀ (m : List (Pubkey × α)) (k : Pubkey) (v : α),
      (m.map Prod.fst).Nodup → ((ainsert m k v).map Prod.fst).Nodup := by
  intro m
  induction m with
  | nil =>
    intro k v _
    simp [ainsert]
  | cons kv rest ih =>
    obtain ⟨k1, v1⟩ := kv
    intro k v hnd
    simp only [List.map_cons, List.nodup_cons] at hnd
    by_cases h1 : k1 = k
    · simp only [ainsert, h1, if_true, List.map_cons, List.nodup_cons]
      exact ⟨by rw [← h1]; exact hnd.1, hnd.2⟩
    · simp only [ainsert, h1, if_false, List.map_cons, List.nodup_cons]
      refine ⟨fun hmem => ?_, ih k v hnd.2⟩
      rcases mem_keys_ainsert rest k v k1 hmem with h | h
      · exact h1 h
      · exact hnd.1 h

/-- `gatherMetas` succeeds when every meta's account is already gathered
or still in the state, and then: it does not disturb a non-meta key (in
either output), every state key ends up in one of the two outputs, and
the gathered map only grows. -/
theorem gatherMetas_spec (fp : Pubkey) :
    ∀ (metas : List BorshAccountMeta) (m st : AMap),
      (∀ meta ∈ metas, acontains m meta.pubkey = true ∨ acontains st meta.pubkey = true) →
      (∀ meta ∈ metas, meta.pubkey ≠ fp) →
      ∃ mOut stOut, gatherMetas metas m st = .ok (mOut, stOut) ∧
        alookup stOut fp = alookup st fp ∧
        alookup mOut fp = alookup m fp ∧
        (∀ pk, acontains st pk = true →
          acontains stOut pk = true ∨ acontains mOut pk = true) ∧
        (∀ pk, acontains m pk = true → acontains mOut pk = true) := by
  intro metas
  induction metas with
  | nil =>
    intro m st _ _
    exact ⟨m, st, rfl, rfl, rfl, fun pk h => Or.inl h, fun pk h => h⟩
  | cons meta rest ih =>
    intro m st hinv hfp
    have hfp0 : meta.pubkey ≠ fp := hfp meta (List.mem_cons_self _ _)
    by_cases hc : acontains m meta.pubkey = true
    · obtain ⟨mOut, stOut, heq, h1, h2, h3, h4⟩ := ih m st
        (fun mm hm => hinv mm (List.mem_cons_of_mem _ hm))
        (fun mm hm => hfp mm (List.mem_cons_of_mem _ hm))
      exact ⟨mOut, stOut, by simp [gatherMetas, hc, heq], h1, h2, h3, h4⟩
    · have hst : acontains st meta.pubkey = true := by
        rcases hinv meta (List.mem_cons_self _ _) with h | h
        · exact absurd h hc
        · exact h
      rw [acontains_eq] at hst
      obtain ⟨v, hv⟩ := Option.isSome_iff_exists.mp hst
      have hinv1 : ∀ mm ∈ rest,
          acontains (ainsert m meta.pubkey v) mm.pubkey = true ∨
          acontains (aremove st meta.pubkey) mm.pubkey = true := by
        intro mm hm
        by_cases hpk : mm.pubkey = meta.pubkey
        · left
          rw [hpk]
          exact acontains_ainsert_self _ _ _
        · rcases hinv mm (List.mem_cons_of_mem _ hm) with h | h
          · exact Or.inl (acontains_ainsert_of h _ _)
          · right
            rw [acontains_aremove_ne _ (fun he => hpk he.symm)]
            exact h
      obtain ⟨mOut, stOut, heq, h1, h2, h3, h4⟩ := ih (ainsert m meta.pubkey v)
        (aremove st meta.pubkey) hinv1 (fun mm hm => hfp mm (List.mem_cons_of_mem _ hm))
      refine ⟨mOut, stOut, ?_, ?_, ?_, ?_, ?_⟩
      · simp [gatherMetas, hc, hv, heq]
      · rw [h1, alookup_aremove_ne _ hfp0]
      · rw [h2, alookup_ainsert_ne _ hfp0]
      · intro pk hpk
        by_cases hpe : pk = meta.pubkey
        · right
          refine h4 pk ?_
          rw [hpe]
          exact acontains_ainsert_self _ _ _
        · refine h3 pk ?_
          rw [acontains_aremove_ne _ (fun he => hpe he.symm)]
          exact hpk
      · intro pk hpk
        exact h4 pk (acontains_ainsert_of hpk _ _)

/-- `executeInstructionM` under a well-behaved oracle: the instruction
returns code 0, the fee payer's binding survives unchanged (the fee payer
is not a meta, not a sysvar, and the oracle never returns it), and state
keys are never lost. -/
theorem executeInstructionM_spec (oracle : ProgramCallOracle) (fp : Pubkey)
    (v : BokkenAccountData)
    (H1 : ∀ pid d ms m depth, (oracle pid d ms m depth).1 = 0)
    (H2 : ∀ pid d ms m depth, alookup m fp = none →
      alookup (oracle pid d ms m depth).2.2 fp = none)
    (H3 : ∀ pid d ms m depth pk, acontains m pk = true →
      acontains (oracle pid d ms m depth).2.2 pk = true)
    (hr : fp ≠ rentSysvarId) (hcl : fp ≠ clockSysvarId)
    (ix : BokkenLedgerInstruction) (st : AMap)
    (hmst : ∀ meta ∈ ix.accountMetas, acontains st meta.pubkey = true)
    (hmfp : ∀ meta ∈ ix.accountMetas, meta.pubkey ≠ fp)
    (hv : alookup st fp = some v) :
    ∃ logs st2, executeInstructionM oracle ix st = .ok ((0, logs), st2) ∧
      alookup st2 fp = some v ∧
      (∀ pk, acontains st pk = true → acontains st2 pk = true) := by
  have hm1fp : alookup (ainsert (ainsert [] rentSysvarId
      ((alookup st rentSysvarId).getD default)) clockSysvarId
      ((alookup st clockSysvarId).getD default)) fp = none := by
    rw [alookup_ainsert_ne _ (Ne.symm hcl), alookup_ainsert_ne _ (Ne.symm hr)]
    rfl
  obtain ⟨mOut, stOut, hgather, h1, h2, h3, h4⟩ := gatherMetas_spec fp ix.accountMetas _ st
    (fun meta hm => Or.inr (hmst meta hm)) hmfp
  have hfpnone : alookup mOut fp = none := by rw [h2]; exact hm1fp
  have hretnone := H2 ix.programId ix.data ix.accountMetas mOut 1 hfpnone
  refine ⟨(oracle ix.programId ix.data ix.accountMetas mOut 1).2.1,
    ainsertAll stOut (oracle ix.programId ix.data ix.accountMetas mOut 1).2.2, ?_, ?_, ?_⟩
  · have hcode := H1 ix.programId ix.data ix.accountMetas mOut 1
    simp [executeInstructionM, gatherAccountDatasForIx, hgather, hcode, Except.map]
  · rw [alookup_ainsertAll_of_none _ hretnone, h1]
    exact hv
  · intro pk hpk
    rcases h3 pk hpk with h | h
    · exact acontains_ainsertAll_left _ _ _ h
    · exact acontains_ainsertAll_right _ _ _ (H3 _ _ _ _ _ pk h)

/-- The instruction loop under a well-behaved oracle: it completes and
the fee payer's binding survives every instruction. -/
theorem runInstructions_ok (oracle : ProgramCallOracle) (fp : Pubkey)
    (v : BokkenAccountData)
    (H1 : ∀ pid d ms m depth, (oracle pid d ms m depth).1 = 0)
    (H2 : ∀ pid d ms m depth, alookup m fp = none →
      alookup (oracle pid d ms m depth).2.2 fp = none)
    (H3 : ∀ pid d ms m depth pk, acontains m pk = true →
      acontains (oracle pid d ms m depth).2.2 pk = true)
    (hr : fp ≠ rentSysvarId) (hcl : fp ≠ clockSysvarId) :
    ∀ (ixs : List BokkenLedgerInstruction) (i : Nat) (st : AMap) (logs : List String),
      alookup st fp = some v →
      (∀ ix ∈ ixs, ∀ meta ∈ ix.accountMetas,
        acontains st meta.pubkey = true ∧ meta.pubkey ≠ fp) →
      ∃ st2 logs2, runInstructions oracle ixs i st logs = .ok (st2, logs2) ∧
        alookup st2 fp = some v := by
  intro ixs
  induction ixs with
  | nil =>
    intro i st logs hv _
    exact ⟨st, logs, rfl, hv⟩
  | cons ix rest ih =>
    intro i st logs hv hmets
    obtain ⟨logs1, st1, hexec, hfp1, hmono⟩ := executeInstructionM_spec oracle fp v
      H1 H2 H3 hr hcl ix st
      (fun meta hm => (hmets ix (List.mem_cons_self _ _) meta hm).1)
      (fun meta hm => (hmets ix (List.mem_cons_self _ _) meta hm).2) hv
    obtain ⟨st2, logs2, hrun, hfp2⟩ := ih (i + 1) st1 (logs ++ logs1) hfp1
      (fun ix2 h2 meta hm =>
        ⟨hmono _ (hmets ix2 (List.mem_cons_of_mem _ h2) meta hm).1,
         (hmets ix2 (List.mem_cons_of_mem _ h2) meta hm).2⟩)
    exact ⟨st2, logs2, by simp [runInstructions, hexec, hrun], hfp2⟩

/-- `loadMetas` keeps existing bindings intact. -/
theorem loadMetas_lookup_preserve (ledger : Pubkey → BokkenAccountData) :
    ∀ (metas : List BorshAccountMeta) (m : AMap) (k : Pubkey) (v : BokkenAccountData),
      alookup m k = some v → alookup (loadMetas ledger m metas) k = some v := by
  intro metas
  induction metas with
  | nil =>
    intro m k v h
    exact h
  | cons meta rest ih =>
    intro m k v h
    refine ih _ k v ?_
    by_cases hc : acontains m meta.pubkey
    · simpa [loadMetas, hc] using h
    · by_cases hpk : meta.pubkey = k
      · exfalso
        rw [hpk, acontains_eq, h] at hc
        exact hc rfl
      · rw [if_neg hc, alookup_ainsert_ne _ hpk]
        exact h

/-- `loadMetas` never drops a key. -/
theorem loadMetas_contains_mono (ledger : Pubkey → BokkenAccountData) :
    ∀ (metas : List BorshAccountMeta) (m : AMap) (k : Pubkey),
      acontains m k = true → acontains (loadMetas ledger m metas) k = true := by
  intro metas
  induction metas with
  | nil =>
    intro m k h
    exact h
  | cons meta rest ih =>
    intro m k h
    refine ih _ k ?_
    by_cases hc : acontains m meta.pubkey
    · simpa [hc] using h
    · rw [if_neg hc]
      exact acontains_ainsert_of h _ _

/-- After `loadMetas`, every processed meta's pubkey is present. -/
theorem loadMetas_contains_self (ledger : Pubkey → BokkenAccountData) :
    ∀ (metas : List BorshAccountMeta) (m : AMap),
      ∀ meta ∈ metas, acontains (loadMetas ledger m metas) meta.pubkey = true := by
  intro metas
  induction metas with
  | nil =>
    intro m meta hm
    simp at hm
  | cons meta0 rest ih =>
    intro m meta hm
    rcases List.mem_cons.mp hm with he | hm
    · subst he
      refine loadMetas_contains_mono ledger rest _ _ ?_
      by_cases hc : acontains m meta.pubkey
      · simp [hc]
      · rw [if_neg hc]
        exact acontains_ainsert_self _ _ _
    · exact ih _ meta hm

/-- `loadIxs` keeps existing bindings intact. -/
theorem loadIxs_lookup_preserve (ledger : Pubkey → BokkenAccountData) :
    ∀ (ixs : List BokkenLedgerInstruction) (m : AMap) (k : Pubkey) (v : BokkenAccountData),
      alookup m k = some v → alookup (loadIxs ledger m ixs) k = some v := by
  intro ixs
  induction ixs with
  | nil =>
    intro m k v h
    exact h
  | cons ix rest ih =>
    intro m k v h
    exact ih _ k v (loadMetas_lookup_preserve ledger ix.accountMetas m k v h)

/-- `loadIxs` never drops a key. -/
theorem loadIxs_contains_mono (ledger : Pubkey → BokkenAccountData) :
    ∀ (ixs : List BokkenLedgerInstruction) (m : AMap) (k : Pubkey),
      acontains m k = true → acontains (loadIxs ledger m ixs) k = true := by
  intro ixs
  induction ixs with
  | nil =>
    intro m k h
    exact h
  | cons ix rest ih =>
    intro m k h
    exact ih _ k (loadMetas_contains_mono ledger ix.accountMetas m k h)

/-- After `loadIxs`, every meta pubkey of every instruction is present. -/
theorem loadIxs_contains_metas (ledger : Pubkey → BokkenAccountData) :
    ∀ (ixs : List BokkenLedgerInstruction) (m : AMap),
      ∀ ix ∈ ixs, ∀ meta ∈ ix.accountMetas,
        acontains (loadIxs ledger m ixs) meta.pubkey = true := by
  intro ixs
  induction ixs with
  | nil =>
    intro m ix hix
    simp at hix
  | cons ix0 rest ih =>
    intro m ix hix meta hm
    rcases List.mem_cons.mp hix with he | hix
    · subst he
      exact loadIxs_contains_mono ledger rest _ _
        (loadMetas_contains_self ledger ix.accountMetas m meta hm)
    · exact ih _ ix hix meta hm

/-- The loaded account map binds the fee payer to its ledger account. -/
theorem loadAccounts_lookup_feePayer (ledger : Pubkey → BokkenAccountData) (fp : Pubkey)
    (ixs : List BokkenLedgerInstruction) :
    alookup (loadAccounts ledger fp ixs) fp = some (ledger fp) := by
  refine loadIxs_lookup_preserve ledger ixs _ fp _ ?_
  by_cases hc : clockSysvarId = fp
  · rw [← hc, alookup_ainsert_self]
  · rw [alookup_ainsert_ne _ hc]
    by_cases hrr : rentSysvarId = fp
    · rw [← hrr, alookup_ainsert_self]
    · rw [alookup_ainsert_ne _ hrr, alookup_ainsert_self]

/-- The loaded account map contains every instruction meta's pubkey. -/
theorem loadAccounts_contains_metas (ledger : Pubkey → BokkenAccountData) (fp : Pubkey)
    (ixs : List BokkenLedgerInstruction) :
    ∀ ix ∈ ixs, ∀ meta ∈ ix.accountMetas,
      acontains (loadAccounts ledger fp ixs) meta.pubkey = true :=
  loadIxs_contains_metas ledger ixs _

/-- `loadMetas` preserves distinctness of keys. -/
theorem loadMetas_keys_nodup (ledger : Pubkey → BokkenAccountData) :
    ∀ (metas : List BorshAccountMeta) (m : AMap),
      (m.map Prod.fst).Nodup → ((loadMetas ledger m metas).map Prod.fst).Nodup := by
  intro metas
  induction metas with
  | nil =>
    intro m h
    exact h
  | cons meta rest ih =>
    intro m h
    refine ih _ ?_
    by_cases hc : acontains m meta.pubkey
    · simpa [hc] using h
    · rw [if_neg hc]
      exact ainsert_keys_nodup _ _ _ h

/-- `loadIxs` preserves distinctness of keys. -/
theorem loadIxs_keys_nodup (ledger : Pubkey → BokkenAccountData) :
    ∀ (ixs : List BokkenLedgerInstruction) (m : AMap),
      (m.map Prod.fst).Nodup → ((loadIxs ledger m ixs).map Prod.fst).Nodup := by
  intro ixs
  induction ixs with
  | nil =>
    intro m h
    exact h
  | cons ix rest ih =>
    intro m h
    exact ih _ (loadMetas_keys_nodup ledger ix.accountMetas m h)

/-- The loaded account map has distinct keys. -/
theorem loadAccounts_keys_nodup (ledger : Pubkey → BokkenAccountData) (fp : Pubkey)
    (ixs : List BokkenLedgerInstruction) :
    ((loadAccounts ledger fp ixs).map Prod.fst).Nodup := by
  refine loadIxs_keys_nodup ledger ixs _ ?_
  refine ainsert_keys_nodup _ _ _ ?_
  refine ainsert_keys_nodup _ _ _ ?_
  simp [ainsert]

/-- `editedFold` over entries that never mention `k` leaves `k`'s lookup
in the accumulator unchanged. -/
theorem editedFold_lookup_of_not_mem (changed : AMap) :
    ∀ (loaded : List (Pubkey × BokkenAccountData)) (acc : AMap) (k : Pubkey),
      (∀ p ∈ loaded, p.1 ≠ k) →
      alookup (editedFold changed loaded acc) k = alookup acc k := by
  intro loaded
  induction loaded with
  | nil =>
    intro acc k _
    rfl
  | cons kv rest ih =>
    obtain ⟨k1, v1⟩ := kv
    intro acc k hne
    have hk1 : k1 ≠ k := hne (k1, v1) (List.mem_cons_self _ _)
    have := ih (if (alookup changed k1).getD default = v1 then acc
        else ainsert acc k1 ((alookup changed k1).getD default)) k
      (fun p hp => hne p (List.mem_cons_of_mem _ hp))
    rw [editedFold, this]
    by_cases hd : (alookup changed k1).getD default = v1
    · rw [if_pos hd]
    · rw [if_neg hd, alookup_ainsert_ne _ hk1]

/-- The committed-accounts fold records the changed fee-payer value: when
the loaded map has distinct keys and binds `k` to `old`, and the final
state binds `k` to a different `newv`, the fold's output binds `k` to
`newv`. -/
theorem editedFold_lookup (changed : AMap) :
    ∀ (loaded : List (Pubkey × BokkenAccountData)) (acc : AMap) (k : Pubkey)
      (old newv : BokkenAccountData),
      (loaded.map Prod.fst).Nodup →
      alookup loaded k = some old →
      alookup changed k = some newv →
      newv ≠ old →
      alookup (editedFold changed loaded acc) k = some newv := by
  intro loaded
  induction loaded with
  | nil =>
    intro acc k old newv _ hl
    simp [alookup] at hl
  | cons kv rest ih =>
    obtain ⟨k1, v1⟩ := kv
    intro acc k old newv hnd hl hch hne
    simp only [List.map_cons, List.nodup_cons] at hnd
    by_cases h1 : k1 = k
    · subst h1
      have hl2 : v1 = old := by simpa [alookup] using hl
      subst hl2
      have hnm : ∀ p ∈ rest, p.1 ≠ k1 := by
        intro p hp he
        exact hnd.1 (he ▸ List.mem_map_of_mem Prod.fst hp)
      rw [editedFold]
      have hgd : (alookup changed k1).getD default = newv := by rw [hch]; rfl
      rw [hgd, if_neg hne, editedFold_lookup_of_not_mem changed rest _ k1 hnm,
        alookup_ainsert_self]
    · simp only [alookup, h1, if_false] at hl
      rw [editedFold]
      exact ih _ k old newv hnd.2 hl hch hne

/-- `insertUniqueSig` never shrinks the signer set. -/
theorem insertUniqueSig_length (sigs : List Pubkey) (p : Pubkey) :
    sigs.length ≤ (insertUniqueSig sigs p).length := by
  unfold insertUniqueSig
  by_cases h : p ∈ sigs <;> simp [h]

/-- Meta-level signer collection never shrinks the signer set. -/
theorem uniqueSigsMetas_length (metas : List BorshAccountMeta) :
    ∀ sigs : List Pubkey, sigs.length ≤ (uniqueSigsMetas sigs metas).length := by
  induction metas with
  | nil =>
    intro sigs
    exact Nat.le_refl _
  | cons meta rest ih =>
    intro sigs
    refine Nat.le_trans ?_ (ih _)
    by_cases h : meta.isSigner <;> simp [h, insertUniqueSig_length]

/-- Instruction-level signer collection never shrinks the signer set. -/
theorem uniqueSigsIxs_length (ixs : List BokkenLedgerInstruction) :
    ∀ sigs : List Pubkey, sigs.length ≤ (uniqueSigsIxs sigs ixs).length := by
  induction ixs with
  | nil =>
    intro sigs
    exact Nat.le_refl _
  | cons ix rest ih =>
    intro sigs
    exact Nat.le_trans (uniqueSigsMetas_length ix.accountMetas sigs) (ih _)

/-- There is always at least one unique signer: the fee payer. -/
theorem uniqueSigners_length_pos (fp : Pubkey) (ixs : List BokkenLedgerInstruction) :
    1 ≤ (uniqueSigners fp ixs).length :=
  uniqueSigsIxs_length ixs [fp]

/-- C1 (amended): with `k` the number of unique signing pubkeys (fee
payer plus every `is_signer` meta), `execute_instructions` aborts with
`InsufficientFundsForFee` whenever the fee payer's balance is below
`5000·k` — for **every** program-call oracle, so before any instruction
runs and with nothing committed (an error return precedes the
commit fold).  When the balance suffices and every instruction succeeds
without touching the fee payer's entry (return code 0; the fee payer is
no instruction meta, no sysvar, and never appears in a returned account
map), the run succeeds and the committed (edited) accounts bind the fee
payer to its loaded account with exactly `5000·k` lamports deducted;
`save_account` stores that value with the same lamports
(`saveAccountValue` preserves the lamport count).  The unamended claim's
"regardless of whether the instructions succeed or fail" is refuted by
`executeInstructions_no_commit_on_failure_eval`. -/
theorem executeInstructions_fee_spec (ledger : Pubkey → BokkenAccountData)
    (feePayer : Pubkey) (ixs : List BokkenLedgerInstruction) :
    (∀ oracle : ProgramCallOracle,
      (ledger feePayer).lamports < 5000 * (uniqueSigners feePayer ixs).length →
      executeInstructionsM ledger oracle feePayer ixs = .error .insufficientFundsForFee)
    ∧ (∀ oracle : ProgramCallOracle,
      (∀ pid d ms m depth, (oracle pid d ms m depth).1 = 0) →
      (∀ pid d ms m depth, alookup m feePayer = none →
        alookup (oracle pid d ms m depth).2.2 feePayer = none) →
      (∀ pid d ms m depth pk, acontains m pk = true →
        acontains (oracle pid d ms m depth).2.2 pk = true) →
      feePayer ≠ rentSysvarId → feePayer ≠ clockSysvarId →
      (∀ ix ∈ ixs, ∀ meta ∈ ix.accountMetas, meta.pubkey ≠ feePayer) →
      5000 * (uniqueSigners feePayer ixs).length ≤ (ledger feePayer).lamports →
      ∃ edited logs,
        executeInstructionsM ledger oracle feePayer ixs = .ok (edited, logs) ∧
        alookup edited feePayer = some { ledger feePayer with
          lamports := (ledger feePayer).lamports -
            5000 * (uniqueSigners feePayer ixs).length } ∧
        (saveAccountValue { ledger feePayer with
          lamports := (ledger feePayer).lamports -
            5000 * (uniqueSigners feePayer ixs).length }).lamports =
          (ledger feePayer).lamports - 5000 * (uniqueSigners feePayer ixs).length) := by
  have hload := loadAccounts_lookup_feePayer ledger feePayer ixs
  constructor
  · intro oracle hlt
    simp only [executeInstructionsM, hload, Option.getD_some]
    rw [if_pos hlt]
  · intro oracle H1 H2 H3 hr hcl hmfp hsuff
    have hfee1 : 5000 ≤ 5000 * (uniqueSigners feePayer ixs).length :=
      Nat.le_mul_of_pos_right 5000 (uniqueSigners_length_pos feePayer ixs)
    obtain ⟨st2, logs2, hrun, hfp2⟩ := runInstructions_ok oracle feePayer
      { ledger feePayer with lamports := (ledger feePayer).lamports -
          5000 * (uniqueSigners feePayer ixs).length }
      H1 H2 H3 hr hcl ixs 0
      (ainsert (loadAccounts ledger feePayer ixs) feePayer
        { ledger feePayer with lamports := (ledger feePayer).lamports -
            5000 * (uniqueSigners feePayer ixs).length })
      [] (alookup_ainsert_self _ _ _)
      (fun ix hix meta hm =>
        ⟨acontains_ainsert_of
            (loadAccounts_contains_metas ledger feePayer ixs ix hix meta hm) _ _,
          hmfp ix hix meta hm⟩)
    have hne : ({ ledger feePayer with lamports := (ledger feePayer).lamports -
        5000 * (uniqueSigners feePayer ixs).length } : BokkenAccountData) ≠
        ledger feePayer := by
      intro heq
      have := congrArg BokkenAccountData.lamports heq
      simp only at this
      omega
    refine ⟨editedFold st2 (loadAccounts ledger feePayer ixs) [], logs2, ?_, ?_, ?_⟩
    · simp only [executeInstructionsM, hload, Option.getD_some]
      rw [if_neg (Nat.not_lt.mpr hsuff), hrun]
    · exact editedFold_lookup st2 (loadAccounts ledger feePayer ixs) [] feePayer
        (ledger feePayer) _ (loadAccounts_keys_nodup ledger feePayer ixs) hload hfp2 hne
    · unfold saveAccountValue
      by_cases hz : (ledger feePayer).lamports -
          5000 * (uniqueSigners feePayer ixs).length = 0
      · simp [hz]
        rfl
      · simp [hz]

/-- C1 (counterexample to the unamended claim): a fee payer holding
100000 lamports — far above the 5000-lamport fee for its single unique
signer — and one instruction whose program returns code 1.  The
transaction aborts with `InstructionExecError` **before** the commit
fold, so nothing is committed and the fee payer's committed lamports do
not decrease at all, contradicting "the fee payer's committed lamports
decrease by exactly 5000·k regardless of whether the instructions
succeed or fail". -/
theorem executeInstructions_no_commit_on_failure_eval :
    executeInstructionsM
      (fun p => if p = 10 then
        { lamports := 100000, data := [], owner := 0, executable := false, rentEpoch := 0 }
        else default)
      (fun _ _ _ _ _ => (1, [], []))
      10 [{ programId := 77, accountMetas := [], data := [] }] =
      .error (.instructionExecError 0 1 [])
    ∧ 5000 * (uniqueSigners 10 [{ programId := 77, accountMetas := [], data := [] }]).length =
      5000 := by
  constructor
  · rfl
  · rfl

/-- Witness for `executeInstructions_fee_spec`: scenario "fee payer
balance 4999, one-signer transaction" is rejected with
insufficient-fee, and a 100000-lamport fee payer with no instructions
commits a 5000-lamport deduction (the identity oracle satisfies every
oracle hypothesis). -/
theorem executeInstructions_fee_spec_witness :
    (executeInstructionsM
      (fun p => if p = 10 then
        { lamports := 4999, data := [], owner := 0, executable := false, rentEpoch := 0 }
        else default)
      (fun _ _ _ m _ => (0, [], m)) 10 [] = .error .insufficientFundsForFee)
    ∧ (∃ edited logs,
        executeInstructionsM
          (fun p => if p = 10 then
            { lamports := 100000, data := [], owner := 0, executable := false, rentEpoch := 0 }
            else default)
          (fun _ _ _ m _ => (0, [], m)) 10 [] = .ok (edited, logs) ∧
        alookup edited 10 = some { lamports := 95000, data := [], owner := 0,
                                   executable := false, rentEpoch := 0 } ∧
        (saveAccountValue { lamports := 95000, data := [], owner := 0,
                            executable := false, rentEpoch := 0 }).lamports = 95000) := by
  constructor
  · exact (executeInstructions_fee_spec _ 10 []).1 _ (by decide)
  · exact (executeInstructions_fee_spec
      (fun p => if p = 10 then
        { lamports := 100000, data := [], owner := 0, executable := false, rentEpoch := 0 }
        else default) 10 []).2 (fun _ _ _ m _ => (0, [], m))
      (fun _ _ _ _ _ => rfl) (fun _ _ _ _ _ h => h) (fun _ _ _ _ _ _ h => h)
      (by decide) (by decide) (by simp) (by decide)
